import Mathlib

/-!
Verification of the session-scoped retrieval and rate-limiting core of a
chat bot that summarises videos and answers questions about them.

The development shallowly embeds the four core components:
* the segmenter `chunk_text` (from `core/chunking.py`),
* the relevance ranker `find_relevant_chunk` and the question-answering
  routing `answer_question` (from `core/qa_engine.py`),
* the rate limiter `is_allowed` / `get_remaining` (from `bot/rate_limiter.py`),
* the session store `save_user_data` / `get_user_data` (from `services/cache.py`).

Python strings are Lean `String`s; Python `str.split()` / `" ".join` /
`str.strip()` truthiness are modelled over the underlying character lists;
wall-clock instants are explicit `Int` parameters (seconds); the durable
sqlite backend of the session store is modelled as a keyed map together with
a boolean telling whether a given write succeeds.
-/

/-- Model of Python `str.split()` (split on whitespace runs, dropping empty
tokens), as a structural recursion over the character list. `acc` holds the
characters of the word currently being read, in reverse order. -/
def splitWordsAux : List Char → List Char → List String
  | [], acc => if acc.isEmpty then [] else [String.mk acc.reverse]
  | c :: cs, acc =>
    if c.isWhitespace then
      if acc.isEmpty then splitWordsAux cs []
      else String.mk acc.reverse :: splitWordsAux cs []
    else splitWordsAux cs (c :: acc)

/-- Python `text.split()`: the whitespace-separated words of a string. -/
def pyWords (s : String) : List String :=
  splitWordsAux s.data []

/-- Separator-prefixed tail of Python `" ".join`: every later word is
preceded by one space. -/
def pyJoinAux : List String → String
  | [] => ""
  | w :: ws => " " ++ w ++ pyJoinAux ws

/-- Python `" ".join(ws)`: words rejoined with single spaces. -/
def pyJoin : List String → String
  | [] => ""
  | w :: ws => w ++ pyJoinAux ws

/-- Truthiness of Python `s.strip()`: the string contains at least one
non-whitespace character. -/
def hasContent (s : String) : Bool :=
  s.data.any (fun c => !c.isWhitespace)

/-- Shallow embedding of `chunk_text(text, chunk_size, overlap)` from
`core/chunking.py`.

The Python body is: return `[]` for empty input; return `[text]` when the
text has fewer words than `chunk_size`; otherwise iterate
`for i in range(0, len(words), step)` with `step = chunk_size - overlap`,
emitting `" ".join(words[i:i+chunk_size])` whenever it strips to something
non-empty.  A negative `step` makes the Python `range` empty (result `[]`);
a zero `step` makes `range` raise `ValueError`, which the function's
catch-all `except` turns into the fallback result `[text]`.  The number of
indices produced by `range(0, n, step)` for `step > 0` is `⌈n / step⌉`,
i.e. `(n + step - 1) / step` in natural-number division. -/
def chunk_text (text : String) (chunk_size : Nat) (overlap : Nat) : List String :=
  if text = "" then []
  else
    if (pyWords text).length < chunk_size then [text]
    else if chunk_size < overlap then []
    else if chunk_size = overlap then [text]
    else
      ((List.range (((pyWords text).length + (chunk_size - overlap) - 1) /
            (chunk_size - overlap))).map
          (fun j => pyJoin (((pyWords text).drop (j * (chunk_size - overlap))).take
            chunk_size))).filter
        (fun c => hasContent c)

/-- A concrete transcript of exactly 800 one-letter words, used as input
for the claims about 800-word segmentation. -/
def text800 : String := pyJoin (List.replicate 800 "a")

/-- Model of Python `str.lower()`: lower-case every character.  (Lean's
`String.toLower` is the same function, but this formulation reduces inside
the kernel, which concrete evaluations need.) -/
def pyLower (s : String) : String := String.mk (s.data.map Char.toLower)

/-- Model of the Python substring test `needle in haystack`: some suffix of
the haystack starts with the needle. -/
def pyIn (needle haystack : String) : Bool :=
  (List.range (haystack.data.length + 1)).any
    (fun i => needle.data.isPrefixOf (haystack.data.drop i))

/-- Score of one chunk in `_find_relevant_chunk` (`core/qa_engine.py`):
`sum(1 for keyword in keywords if keyword in chunk_lower)` — the number of
entries of the keyword list (with multiplicity) occurring as substrings of
the lower-cased chunk. -/
def chunkScore (keywords : List String) (chunk : String) : Nat :=
  (keywords.filter (fun keyword => pyIn keyword (pyLower chunk))).length

/-- Insertion step of a stable descending sort on the score component.
Python's `list.sort(reverse=True, key=lambda x: x[0])` is stable: elements
with equal scores keep their original relative order, which is what
inserting a (originally earlier) element before the first entry of
not-greater score achieves. -/
def insertDesc (x : Nat × String) : List (Nat × String) → List (Nat × String)
  | [] => [x]
  | y :: ys => if x.1 < y.1 then y :: insertDesc x ys else x :: y :: ys

/-- Stable descending sort by score, modelling
`chunk_scores.sort(reverse=True, key=lambda x: x[0])`. -/
def sortDesc : List (Nat × String) → List (Nat × String)
  | [] => []
  | y :: ys => insertDesc y (sortDesc ys)

/-- Shallow embedding of `_find_relevant_chunk(question, chunks)` from
`core/qa_engine.py`: score every chunk by keyword matches against the
lower-cased question's word list, sort the `(score, chunk)` pairs by
descending score, and return the top chunk if its score is positive,
otherwise `None`. -/
def find_relevant_chunk (question : String) (chunks : List String) : Option String :=
  match sortDesc (chunks.map
      (fun chunk => (chunkScore (pyWords (pyLower question)) chunk, chunk))) with
  | [] => none
  | (s, c) :: _ => if 0 < s then some c else none

/-- Observable outcome of `answer_question` (`core/qa_engine.py`): the
raised `ModelError` for an empty question, one of the two fixed fallback
replies, or a call to the generation provider with the selected context. -/
inductive QAOutcome where
  | invalidQuestion : QAOutcome
  | noTranscript : QAOutcome
  | notCovered : QAOutcome
  | generate : String → QAOutcome
deriving DecidableEq

/-- Shallow embedding of the routing of `answer_question(question, chunks)`
from `core/qa_engine.py`, with the LLM call abstracted: an empty question
raises, empty chunks return the fixed "no transcript" reply, a `None`
context returns the fixed "this topic is not covered" reply, and otherwise
the generator is invoked with the selected context. -/
def answer_question (question : String) (chunks : List String) : QAOutcome :=
  if question = "" then QAOutcome.invalidQuestion
  else if chunks = [] then QAOutcome.noTranscript
  else
    match find_relevant_chunk question chunks with
    | none => QAOutcome.notCovered
    | some context => QAOutcome.generate context

/-- Spec-side definition, from the spec's words for the ranker score: the
set of distinct lowercase words of a string. -/
def specWordSet (s : String) : List String := (pyWords (pyLower s)).dedup

/-- Spec-side definition, from the spec's words: `overlapScore + phraseBonus`,
where `overlapScore` is the cardinality of the intersection of the distinct
lowercase word sets of question and segment, and `phraseBonus` is 1 exactly
when the lowercased question occurs verbatim in the lowercased segment. -/
def specScore (question segment : String) : Nat :=
  ((specWordSet question).filter (fun w => (specWordSet segment).contains w)).length +
    (if pyIn (pyLower question) (pyLower segment) then 1 else 0)

/-- Default `Config.MAX_REQUESTS_PER_MINUTE` from `config/settings.py`. -/
def MAX_REQUESTS_PER_MINUTE : Nat := 30

/-- The fixed `window_minutes = 1` of `RateLimiter.__init__`
(`bot/rate_limiter.py`). -/
def window_minutes : Int := 1

/-- State of the `RateLimiter` of `bot/rate_limiter.py`: the
`user_requests` dict mapping `str(user_id)` to recorded timestamps
(seconds, as integers), plus the configured request cap. -/
structure RateLimiter where
  user_requests : String → List Int
  max_requests : Nat

/-- A freshly constructed rate limiter under the default configuration. -/
def initRL : RateLimiter :=
  { user_requests := fun _ => [], max_requests := MAX_REQUESTS_PER_MINUTE }

/-- Shallow embedding of `RateLimiter.is_allowed(user_id)` with the call
instant `now` made explicit.  The Python body computes
`window_start = now - timedelta(minutes=1)`, replaces the user's stored
list by the timestamps with `ts > window_start`, returns `False` without
recording the attempt if the remaining count reaches `max_requests`, and
otherwise appends `now` and returns `True`. -/
def is_allowed (rl : RateLimiter) (user_id : Int) (now : Int) : Bool × RateLimiter :=
  if rl.max_requests ≤
      ((rl.user_requests (toString user_id)).filter
        (fun ts => decide (now - 60 * window_minutes < ts))).length then
    (false,
      { rl with
        user_requests := fun u =>
          if u = toString user_id then
            (rl.user_requests (toString user_id)).filter
              (fun ts => decide (now - 60 * window_minutes < ts))
          else rl.user_requests u })
  else
    (true,
      { rl with
        user_requests := fun u =>
          if u = toString user_id then
            ((rl.user_requests (toString user_id)).filter
              (fun ts => decide (now - 60 * window_minutes < ts))) ++ [now]
          else rl.user_requests u })

/-- Shallow embedding of `RateLimiter.get_remaining(user_id)`:
`max(0, max_requests - len(stored))` over the stored list as-is, with no
pruning (natural-number subtraction is exactly `max(0, ...)`). -/
def get_remaining (rl : RateLimiter) (user_id : Int) : Nat :=
  rl.max_requests - (rl.user_requests (toString user_id)).length

/-- Spec-side definition, from the spec's words for `remaining(userId)`:
`max(0, maxRequests - count_of_timestamps_in_window)`, where a timestamp is
in the window when its age at the read instant is at most the window
duration. -/
def spec_remaining (rl : RateLimiter) (user_id : Int) (now : Int) : Nat :=
  rl.max_requests -
    ((rl.user_requests (toString user_id)).filter
      (fun ts => decide (now - ts ≤ 60 * window_minutes))).length

/-- Result of `n` consecutive `is_allowed` calls at the same instant: the
conjunction of all returned flags, and the final limiter state. -/
def nCalls (rl : RateLimiter) (user_id : Int) (now : Int) : Nat → Bool × RateLimiter
  | 0 => (true, rl)
  | n + 1 =>
    ((nCalls rl user_id now n).1 && (is_allowed (nCalls rl user_id now n).2 user_id now).1,
      (is_allowed (nCalls rl user_id now n).2 user_id now).2)

/-- Per-user session payload stored by `services/cache.py`: the summary and
the transcript chunks. -/
structure SessionData where
  summary : String
  chunks : List String
deriving DecidableEq

/-- One row of the `user_sessions` sqlite table (`services/cache.py`). -/
structure DbRow where
  summary : String
  chunks : List String
  created_at : Int
  updated_at : Int
  expires_at : Int
deriving DecidableEq

/-- State of `SessionManager` (`services/cache.py`): the in-process
`in_memory_cache` dict and the durable sqlite table, both keyed by user id. -/
structure SessionManager where
  in_memory_cache : Int → Option SessionData
  db : Int → Option DbRow

/-- Default `Config.TOKEN_EXPIRY_HOURS` from `config/settings.py`. -/
def TOKEN_EXPIRY_HOURS : Int := 24

/-- A session manager over an empty cache and an empty table. -/
def initSM : SessionManager := { in_memory_cache := fun _ => none, db := fun _ => none }

/-- Shallow embedding of `SessionManager.save_user_data(user_id, data)` with
the write instant `now` and the success of the sqlite write (`dbWriteOk`)
made explicit.  The Python body first stores the in-memory copy, then
attempts the durable `INSERT OR REPLACE` with
`expires_at = now + TOKEN_EXPIRY_HOURS`; an `sqlite3.Error` is caught, logged,
and answered by keeping the in-memory copy — the function returns normally in
both cases and never raises, which the `Except` result records as `ok`. -/
def save_user_data (sm : SessionManager) (dbWriteOk : Bool) (user_id : Int)
    (data : SessionData) (now : Int) : Except String SessionManager :=
  if dbWriteOk then
    Except.ok
      { in_memory_cache := fun u => if u = user_id then some data else sm.in_memory_cache u,
        db := fun u =>
          if u = user_id then
            some
              { summary := data.summary, chunks := data.chunks, created_at := now,
                updated_at := now, expires_at := now + TOKEN_EXPIRY_HOURS * 3600 }
          else sm.db u }
  else
    Except.ok
      { in_memory_cache := fun u => if u = user_id then some data else sm.in_memory_cache u,
        db := sm.db }

/-- Shallow embedding of `SessionManager.get_user_data(user_id)` with the
read instant `now` made explicit: return the in-memory copy if present
(with no expiry check); otherwise query the table with
`WHERE user_id = ? AND expires_at > ?`, and on a hit rebuild the payload,
refresh the in-memory cache and return it; otherwise return `None`. -/
def get_user_data (sm : SessionManager) (user_id : Int) (now : Int) :
    Option SessionData × SessionManager :=
  match sm.in_memory_cache user_id with
  | some data => (some data, sm)
  | none =>
    match sm.db user_id with
    | some row =>
      if now < row.expires_at then
        (some { summary := row.summary, chunks := row.chunks },
          { sm with
            in_memory_cache := fun u =>
              if u = user_id then some { summary := row.summary, chunks := row.chunks }
              else sm.in_memory_cache u })
      else (none, sm)
    | none => (none, sm)

/-- Whether a store operation reported success rather than surfacing a
failure. -/
def saveIsOk (r : Except String SessionManager) : Bool :=
  match r with
  | Except.ok _ => true
  | Except.error _ => false

/-- In-memory cache entry for a user after a store operation. -/
def cacheAfter (r : Except String SessionManager) (user_id : Int) : Option SessionData :=
  match r with
  | Except.ok sm => sm.in_memory_cache user_id
  | Except.error _ => none

/-- Durable table row for a user after a store operation. -/
def dbAfter (r : Except String SessionManager) (user_id : Int) : Option DbRow :=
  match r with
  | Except.ok sm => sm.db user_id
  | Except.error _ => none

/-- Concrete session payload used in evaluations. -/
def d0 : SessionData := { summary := "s", chunks := ["c"] }

/-- The session manager state right after a successful `save_user_data` for
user 1 at instant 0 on a fresh store. -/
def afterSave : SessionManager :=
  match save_user_data initSM true 1 d0 0 with
  | Except.ok sm => sm
  | Except.error _ => initSM

/-- The word flushed from a non-empty accumulator of non-whitespace
characters is non-empty and whitespace-free. -/
theorem mk_reverse_clean (acc : List Char) (hacc : ∀ c ∈ acc, c.isWhitespace = false)
    (hne : acc ≠ []) :
    String.mk acc.reverse ≠ "" ∧
      (String.mk acc.reverse).data.all (fun c => !c.isWhitespace) = true := by
  constructor
  · intro hcon
    have hdata : acc.reverse = [] := congrArg String.data hcon
    exact hne (by simpa using hdata)
  · show acc.reverse.all (fun c => !c.isWhitespace) = true
    rw [List.all_eq_true]
    intro c hc
    have : c.isWhitespace = false := hacc c (List.mem_reverse.mp hc)
    simp [this]

/-- Every word produced by `splitWordsAux` is non-empty and consists of
non-whitespace characters only, provided the accumulator does. -/
theorem splitWordsAux_clean (l : List Char) :
    ∀ acc : List Char, (∀ c ∈ acc, c.isWhitespace = false) →
      ∀ w ∈ splitWordsAux l acc, w ≠ "" ∧ w.data.all (fun c => !c.isWhitespace) = true := by
  induction l with
  | nil =>
    intro acc hacc w hw
    unfold splitWordsAux at hw
    by_cases h0 : acc = []
    · rw [if_pos (by simp [h0])] at hw
      simp at hw
    · rw [if_neg (by simp [h0])] at hw
      simp at hw
      subst hw
      exact mk_reverse_clean acc hacc h0
  | cons c cs ih =>
    intro acc hacc w hw
    unfold splitWordsAux at hw
    by_cases hws : c.isWhitespace
    · rw [if_pos hws] at hw
      by_cases h0 : acc = []
      · rw [if_pos (by simp [h0])] at hw
        exact ih [] (by simp) w hw
      · rw [if_neg (by simp [h0])] at hw
        rcases List.mem_cons.mp hw with hw | hw
        · subst hw
          exact mk_reverse_clean acc hacc h0
        · exact ih [] (by simp) w hw
    · rw [if_neg hws] at hw
      refine ih (c :: acc) ?_ w hw
      intro d hd
      rcases List.mem_cons.mp hd with hd | hd
      · subst hd; simpa using hws
      · exact hacc d hd

/-- Every word of `pyWords s` is non-empty and whitespace-free. -/
theorem pyWords_clean (s : String) :
    ∀ w ∈ pyWords s, w ≠ "" ∧ w.data.all (fun c => !c.isWhitespace) = true :=
  splitWordsAux_clean s.data [] (by simp)

/-- A clean word has content. -/
theorem hasContent_of_clean (w : String)
    (h : w ≠ "" ∧ w.data.all (fun c => !c.isWhitespace) = true) :
    hasContent w = true := by
  obtain ⟨hne, hall⟩ := h
  unfold hasContent
  rw [List.any_eq_true]
  have hdata : w.data ≠ [] := by
    intro hcon
    exact hne ((String.ext (by simpa using hcon) : w = ""))
  obtain ⟨c, cs, hcc⟩ := List.exists_cons_of_ne_nil hdata
  refine ⟨c, by simp [hcc], ?_⟩
  rw [List.all_eq_true] at hall
  exact hall c (by simp [hcc])

/-- Content survives appending on the right. -/
theorem hasContent_append_left (a b : String) (h : hasContent a = true) :
    hasContent (a ++ b) = true := by
  unfold hasContent at h ⊢
  rw [String.data_append, List.any_append, h, Bool.true_or]

/-- A join whose first word has content has content. -/
theorem hasContent_pyJoin (w : String) (ws : List String) (h : hasContent w = true) :
    hasContent (pyJoin (w :: ws)) = true := by
  show hasContent (w ++ pyJoinAux ws) = true
  exact hasContent_append_left _ _ h

/-- The empty string splits into no words. -/
theorem pyWords_empty : pyWords "" = [] := rfl

/-- Claim C9: for every non-empty text whose whitespace-tokenized word count
is strictly less than `segmentSize`, the segmenter returns exactly the
one-element sequence holding the original text, and for empty input it
returns the empty sequence. -/
theorem C9_short_text_roundtrip :
    (∀ (text : String) (cs ov : Nat), text ≠ "" → (pyWords text).length < cs →
      chunk_text text cs ov = [text]) ∧
    (∀ cs ov : Nat, chunk_text "" cs ov = []) := by
  constructor
  · intro text cs ov hne hlen
    unfold chunk_text
    rw [if_neg hne, if_pos hlen]
  · intro cs ov
    rfl

/-- Witness for C9 at a concrete short text. -/
theorem C9_short_text_roundtrip_witness :
    ("hello world" : String) ≠ "" ∧ (pyWords "hello world").length < 800 ∧
      chunk_text "hello world" 800 100 = ["hello world"] :=
  ⟨by decide, by decide,
    C9_short_text_roundtrip.1 "hello world" 800 100 (by decide) (by decide)⟩

/-- A text all of whose characters are whitespace splits into no words. -/
theorem splitWordsAux_all_ws (l : List Char) (h : ∀ c ∈ l, c.isWhitespace = true) :
    splitWordsAux l [] = [] := by
  induction l with
  | nil => rfl
  | cons c cs ih =>
    unfold splitWordsAux
    rw [if_pos (h c (by simp)), if_pos (by simp)]
    exact ih (fun d hd => h d (by simp [hd]))

/-- A text that splits into at least one word has a non-whitespace character. -/
theorem hasContent_of_words_ne_nil (s : String) (h : pyWords s ≠ []) :
    hasContent s = true := by
  by_contra hc
  refine h (splitWordsAux_all_ws s.data ?_)
  intro c hcmem
  by_contra hcw
  exact hc (List.any_eq_true.mpr ⟨c, hcmem, by simpa using hcw⟩)

/-- Claim C8 (corrected): misconfiguration `overlap ≥ segmentSize` is NOT
rejected with a failure.  For a text with at least `segmentSize` words, the
segmenter silently returns `[text]` when `overlap = segmentSize` (the internal
zero-step `range` error is caught by the catch-all handler, which falls back
to the original text) and the empty sequence when `overlap > segmentSize`
(the negative-step `range` is empty); no error is signalled and no loop
diverges. -/
theorem C8_no_fail_fast (text : String) (cs ov : Nat) (h1 : 0 < cs)
    (h2 : cs ≤ (pyWords text).length) (h3 : cs ≤ ov) :
    chunk_text text cs ov = if cs < ov then [] else [text] := by
  have hne : text ≠ "" := by
    intro h0
    subst h0
    have hz : (pyWords "").length = 0 := rfl
    omega
  unfold chunk_text
  rw [if_neg hne, if_neg (by omega)]
  by_cases hlt : cs < ov
  · rw [if_pos hlt, if_pos hlt]
  · have heq : cs = ov := by omega
    rw [if_neg hlt, if_pos heq, if_neg hlt]

/-- Counterexample for C8 as stated: under `overlap = segmentSize = 2` the
segmenter silently returns the whole text, and under `overlap = 3 >
segmentSize = 2` it silently returns the empty sequence — neither
configuration signals an error. -/
theorem C8_counterexample :
    chunk_text "a b" 2 2 = ["a b"] ∧ chunk_text "a b c" 2 3 = [] := by
  decide

/-- Witness for the corrected C8 at a concrete misconfigured input. -/
theorem C8_no_fail_fast_witness :
    0 < 2 ∧ 2 ≤ (pyWords "a b").length ∧ 2 ≤ 2 ∧
      chunk_text "a b" 2 2 = (if 2 < 2 then [] else ["a b"]) :=
  ⟨by decide, by decide, by decide,
    C8_no_fail_fast "a b" 2 2 (by decide) (by decide) (by decide)⟩

/-- Claim C10: for every input text with at least `segmentSize` words
(`segmentSize` positive), every element of the segmenter's output is a
non-empty string containing at least one non-whitespace character — windows
joining to whitespace-only strings are dropped by the output filter. -/
theorem C10_chunks_nonempty (text : String) (cs ov : Nat) (h1 : 0 < cs)
    (h2 : cs ≤ (pyWords text).length) :
    ∀ c ∈ chunk_text text cs ov, c ≠ "" ∧ hasContent c = true := by
  have hne : text ≠ "" := by
    intro h0
    subst h0
    have hz : (pyWords "").length = 0 := rfl
    omega
  have hwne : pyWords text ≠ [] := by
    intro h0
    rw [h0] at h2
    simp at h2
    omega
  have htext : hasContent text = true := hasContent_of_words_ne_nil text hwne
  intro c hc
  unfold chunk_text at hc
  rw [if_neg hne, if_neg (by omega)] at hc
  by_cases hlt : cs < ov
  · rw [if_pos hlt] at hc
    simp at hc
  · rw [if_neg hlt] at hc
    by_cases heq : cs = ov
    · rw [if_pos heq] at hc
      simp at hc
      subst hc
      exact ⟨hne, htext⟩
    · rw [if_neg heq] at hc
      have hcont := List.of_mem_filter hc
      refine ⟨?_, hcont⟩
      intro h0
      subst h0
      exact absurd hcont (by decide)

/-- Witness for C10 at a concrete text and window size. -/
theorem C10_chunks_nonempty_witness :
    0 < 2 ∧ 2 ≤ (pyWords "a b c").length ∧
      ∀ c ∈ chunk_text "a b c" 2 1, c ≠ "" ∧ hasContent c = true :=
  ⟨by decide, by decide, C10_chunks_nonempty "a b c" 2 1 (by decide) (by decide)⟩

/-- Counting the indices of `range(0, n, step)`: `j` is such an index
exactly when `j * step < n`. -/
theorem windowIdx_iff (N j step : Nat) (hstep : 0 < step) :
    j < (N + step - 1) / step ↔ j * step < N := by
  rw [Nat.lt_iff_add_one_le, Nat.le_div_iff_mul_le hstep, add_mul, one_mul]
  omega

/-- On a text with at least `chunk_size` words and a positive step, the
segmenter emits exactly the `⌈N / step⌉` windows of the Python loop: every
window joins to a chunk with content, so the output filter keeps them all. -/
theorem chunk_text_windows (text : String) (cs ov : Nat) (hov : ov < cs)
    (h2 : cs ≤ (pyWords text).length) :
    chunk_text text cs ov =
      (List.range (((pyWords text).length + (cs - ov) - 1) / (cs - ov))).map
        (fun j => pyJoin (((pyWords text).drop (j * (cs - ov))).take cs)) := by
  have hne : text ≠ "" := by
    intro h0
    subst h0
    have hz : (pyWords "").length = 0 := rfl
    omega
  unfold chunk_text
  rw [if_neg hne, if_neg (by omega), if_neg (by omega), if_neg (by omega)]
  apply List.filter_eq_self.mpr
  intro a ha
  rw [List.mem_map] at ha
  obtain ⟨j, hj, rfl⟩ := ha
  rw [List.mem_range] at hj
  have hstep : 0 < cs - ov := by omega
  have hjN : j * (cs - ov) < (pyWords text).length := (windowIdx_iff _ _ _ hstep).mp hj
  have hdrop : (pyWords text).drop (j * (cs - ov)) ≠ [] := by
    rw [ne_eq, List.drop_eq_nil_iff]
    omega
  have htake : ((pyWords text).drop (j * (cs - ov))).take cs ≠ [] := by
    rw [ne_eq, List.take_eq_nil_iff]
    rintro (h | h)
    · omega
    · exact hdrop h
  obtain ⟨w, rest, hwr⟩ := List.exists_cons_of_ne_nil htake
  rw [hwr]
  apply hasContent_pyJoin
  apply hasContent_of_clean
  apply pyWords_clean
  have hwmem : w ∈ ((pyWords text).drop (j * (cs - ov))).take cs := by
    rw [hwr]
    simp
  exact List.drop_subset _ _ (List.take_subset _ _ hwmem)

/-- Splitting the space-separated continuation of a join of `n` copies of
the word `a`, with one pending `a` in the accumulator, yields `n + 1`
copies of the word. -/
theorem splitWordsAux_joinAux (n : Nat) :
    splitWordsAux (pyJoinAux (List.replicate n "a")).data ['a'] =
      "a" :: List.replicate n "a" := by
  induction n with
  | zero => rfl
  | succ n ih =>
    rw [List.replicate_succ]
    show splitWordsAux ((" " ++ "a" ++ pyJoinAux (List.replicate n "a")).data) ['a'] = _
    rw [String.data_append, String.data_append]
    show "a" :: splitWordsAux (pyJoinAux (List.replicate n "a")).data ['a'] = _
    rw [ih]

/-- Joining `n + 1` copies of the word `a` and splitting again is the
identity. -/
theorem words_join_replicate (n : Nat) :
    pyWords (pyJoin (List.replicate (n + 1) "a")) = List.replicate (n + 1) "a" := by
  rw [List.replicate_succ]
  show splitWordsAux (("a" ++ pyJoinAux (List.replicate n "a")).data) [] = _
  rw [String.data_append]
  show splitWordsAux (pyJoinAux (List.replicate n "a")).data ['a'] = _
  exact splitWordsAux_joinAux n

/-- The 800-word transcript splits back into its 800 words. -/
theorem text800_words : pyWords text800 = List.replicate 800 "a" :=
  words_join_replicate 799

/-- The 800-word transcript has 800 words. -/
theorem text800_length : (pyWords text800).length = 800 := by
  rw [text800_words, List.length_replicate]

/-- Counterexample for C3 as stated: on a text of exactly `N = 800` words
the segmenter returns 2 segments (the Python loop also starts a window at
index 700), while the claimed formula `⌈max(0, N-800)/700⌉ + 1` gives 1. -/
theorem C3_counterexample :
    (chunk_text text800 800 100).length = 2 ∧
      (max 0 ((pyWords text800).length - 800) + 699) / 700 + 1 = 1 := by
  constructor
  · rw [chunk_text_windows text800 800 100 (by omega) (by rw [text800_length]),
      List.length_map, List.length_range, text800_length]
  · rw [text800_length]
    decide

/-- Claim C3 (corrected): for a text of `N ≥ 800` words under
`segmentSize = 800, overlap = 100` (step 700), the segmenter returns exactly
`⌈N / 700⌉ = (N + 699) / 700` segments (not `⌈max(0, N-800)/700⌉ + 1`), and
every word index in `[0, N)` is covered by a returned window: index `w`
lies in window `w / 700`, which is returned at that position. -/
theorem C3_segment_count_coverage (text : String) (h : 800 ≤ (pyWords text).length) :
    (chunk_text text 800 100).length = ((pyWords text).length + 699) / 700 ∧
      ∀ w, w < (pyWords text).length →
        (w / 700) * 700 ≤ w ∧ w < (w / 700) * 700 + 800 ∧
          w / 700 < (chunk_text text 800 100).length ∧
          (chunk_text text 800 100)[w / 700]? =
            some (pyJoin (((pyWords text).drop ((w / 700) * 700)).take 800)) := by
  have hw := chunk_text_windows text 800 100 (by omega) h
  have hlen : (chunk_text text 800 100).length = ((pyWords text).length + 699) / 700 := by
    rw [hw, List.length_map, List.length_range]
    omega
  refine ⟨hlen, ?_⟩
  intro w hwlt
  have hmod := Nat.div_add_mod w 700
  have hmodlt : w % 700 < 700 := Nat.mod_lt w (by omega)
  have hj1 : (w / 700) * 700 ≤ w := Nat.div_mul_le_self w 700
  have hj2 : w < (w / 700) * 700 + 800 := by omega
  have hjlt : w / 700 < ((pyWords text).length + 699) / 700 := by
    have := (windowIdx_iff (pyWords text).length (w / 700) 700 (by omega)).mpr (by omega)
    have h700 : (800 : Nat) - 100 = 700 := rfl
    omega
  refine ⟨hj1, hj2, by omega, ?_⟩
  rw [hw, List.getElem?_map, List.getElem?_range (by simpa using hjlt)]
  rfl

/-- Witness for the corrected C3 at the concrete 800-word transcript. -/
theorem C3_segment_count_coverage_witness :
    800 ≤ (pyWords text800).length ∧
      ((chunk_text text800 800 100).length = ((pyWords text800).length + 699) / 700 ∧
        ∀ w, w < (pyWords text800).length →
          (w / 700) * 700 ≤ w ∧ w < (w / 700) * 700 + 800 ∧
            w / 700 < (chunk_text text800 800 100).length ∧
            (chunk_text text800 800 100)[w / 700]? =
              some (pyJoin (((pyWords text800).drop ((w / 700) * 700)).take 800))) :=
  ⟨by rw [text800_length], C3_segment_count_coverage text800 (by rw [text800_length])⟩

/-- Membership in an insertion is membership in the inserted element or the
list. -/
theorem insertDesc_mem (x a : Nat × String) (l : List (Nat × String)) :
    a ∈ insertDesc x l ↔ a = x ∨ a ∈ l := by
  induction l with
  | nil => simp [insertDesc]
  | cons y ys ih =>
    unfold insertDesc
    by_cases h : x.1 < y.1
    · rw [if_pos h]
      simp only [List.mem_cons, ih]
      tauto
    · rw [if_neg h]
      simp

/-- The sort permutes membership. -/
theorem sortDesc_mem (a : Nat × String) (l : List (Nat × String)) :
    a ∈ sortDesc l ↔ a ∈ l := by
  induction l with
  | nil => simp [sortDesc]
  | cons y ys ih =>
    show a ∈ insertDesc y (sortDesc ys) ↔ _
    rw [insertDesc_mem]
    simp [ih]

/-- Insertion preserves descending sortedness on scores. -/
theorem insertDesc_sorted (x : Nat × String) (l : List (Nat × String))
    (h : List.Sorted (fun a b : Nat × String => b.1 ≤ a.1) l) :
    List.Sorted (fun a b : Nat × String => b.1 ≤ a.1) (insertDesc x l) := by
  induction l with
  | nil => simp [insertDesc]
  | cons y ys ih =>
    rw [List.sorted_cons] at h
    obtain ⟨hy, hys⟩ := h
    unfold insertDesc
    by_cases hxy : x.1 < y.1
    · rw [if_pos hxy, List.sorted_cons]
      refine ⟨?_, ih hys⟩
      intro b hb
      rcases (insertDesc_mem x b ys).mp hb with hb | hb
      · subst hb
        omega
      · exact hy b hb
    · rw [if_neg hxy, List.sorted_cons]
      refine ⟨?_, ?_⟩
      · intro b hb
        rcases List.mem_cons.mp hb with hb | hb
        · subst hb
          omega
        · have := hy b hb
          omega
      · rw [List.sorted_cons]
        exact ⟨hy, hys⟩

/-- The sorted score list is descending. -/
theorem sortDesc_sorted (l : List (Nat × String)) :
    List.Sorted (fun a b : Nat × String => b.1 ≤ a.1) (sortDesc l) := by
  induction l with
  | nil => simp [sortDesc]
  | cons y ys ih => exact insertDesc_sorted y (sortDesc ys) ih

/-- The head of the sorted score list is an element of the original list
whose score bounds every other score. -/
theorem sortDesc_head_max (l : List (Nat × String)) (s : Nat) (c : String)
    (rest : List (Nat × String)) (h : sortDesc l = (s, c) :: rest) :
    (s, c) ∈ l ∧ ∀ p ∈ l, p.1 ≤ s := by
  constructor
  · rw [← sortDesc_mem, h]
    simp
  · intro p hp
    rw [← sortDesc_mem p l, h] at hp
    rcases List.mem_cons.mp hp with hp | hp
    · subst hp
      simp
    · have hs := sortDesc_sorted l
      rw [h, List.sorted_cons] at hs
      exact hs.1 p hp

/-- Claim C1 (corrected): the ranker returns at most ONE segment, not the
top `k = 3`.  When it returns a segment, that segment comes from the input,
has positive score and maximal score among all segments, and is handed to
the generation step; when every segment scores zero it returns absent and
`answer_question` short-circuits with the fixed "not covered" reply instead
of handing best-effort context to the generator. -/
theorem C1_top1_behavior (question : String) (chunks : List String)
    (hq : question ≠ "") (hc : chunks ≠ []) :
    (∀ c, find_relevant_chunk question chunks = some c →
      c ∈ chunks ∧ 0 < chunkScore (pyWords (pyLower question)) c ∧
        (∀ d ∈ chunks,
          chunkScore (pyWords (pyLower question)) d ≤
            chunkScore (pyWords (pyLower question)) c) ∧
        answer_question question chunks = QAOutcome.generate c) ∧
    (find_relevant_chunk question chunks = none →
      (∀ d ∈ chunks, chunkScore (pyWords (pyLower question)) d = 0) ∧
        answer_question question chunks = QAOutcome.notCovered) := by
  rcases hsort : sortDesc (chunks.map
      (fun chunk => (chunkScore (pyWords (pyLower question)) chunk, chunk))) with
    _ | ⟨⟨s, c⟩, rest⟩
  · exfalso
    obtain ⟨d, ds, hd⟩ := List.exists_cons_of_ne_nil hc
    have : (chunkScore (pyWords (pyLower question)) d, d) ∈ sortDesc (chunks.map
        (fun chunk => (chunkScore (pyWords (pyLower question)) chunk, chunk))) := by
      rw [sortDesc_mem, List.mem_map]
      exact ⟨d, by simp [hd], rfl⟩
    rw [hsort] at this
    simp at this
  · have hfind : find_relevant_chunk question chunks =
        if 0 < s then some c else none := by
      unfold find_relevant_chunk
      rw [hsort]
    obtain ⟨hmem, hmax⟩ := sortDesc_head_max _ s c rest hsort
    rw [List.mem_map] at hmem
    obtain ⟨d, hd, hfd⟩ := hmem
    have hds : chunkScore (pyWords (pyLower question)) d = s := congrArg Prod.fst hfd
    have hdc : d = c := congrArg Prod.snd hfd
    rw [hdc] at hd hds
    constructor
    · intro c' heq
      rw [hfind] at heq
      by_cases hs : 0 < s
      · rw [if_pos hs] at heq
        have hcc : c = c' := Option.some.inj heq
        subst hcc
        refine ⟨hd, by omega, ?_, ?_⟩
        · intro e he
          have := hmax (chunkScore (pyWords (pyLower question)) e, e)
            (by rw [List.mem_map]; exact ⟨e, he, rfl⟩)
          simp at this
          omega
        · unfold answer_question
          rw [if_neg hq, if_neg hc, hfind, if_pos hs]
      · rw [if_neg hs] at heq
        exact absurd heq (by simp)
    · intro heq
      rw [hfind] at heq
      by_cases hs : 0 < s
      · rw [if_pos hs] at heq
        exact absurd heq (by simp)
      · refine ⟨?_, ?_⟩
        · intro e he
          have := hmax (chunkScore (pyWords (pyLower question)) e, e)
            (by rw [List.mem_map]; exact ⟨e, he, rfl⟩)
          simp at this
          omega
        · unfold answer_question
          rw [if_neg hq, if_neg hc, hfind, if_neg hs]

/-- Counterexample for C1 as stated: three segments, none of which matches
the question's words — instead of returning the `k = 3` best-effort
segments to the generation step, the ranker returns absent and
`answer_question` answers with the fixed "not covered" short-circuit. -/
theorem C1_counterexample :
    find_relevant_chunk "zzz" ["alpha", "beta", "gamma"] = none ∧
      answer_question "zzz" ["alpha", "beta", "gamma"] = QAOutcome.notCovered := by
  decide

/-- Witness for the corrected C1 at a concrete matching question. -/
theorem C1_top1_behavior_witness :
    ("pricing" : String) ≠ "" ∧ (["the pricing model", "none"] : List String) ≠ [] ∧
      ((∀ c, find_relevant_chunk "pricing" ["the pricing model", "none"] = some c →
        c ∈ ["the pricing model", "none"] ∧
          0 < chunkScore (pyWords (pyLower "pricing")) c ∧
          (∀ d ∈ ["the pricing model", "none"],
            chunkScore (pyWords (pyLower "pricing")) d ≤
              chunkScore (pyWords (pyLower "pricing")) c) ∧
          answer_question "pricing" ["the pricing model", "none"] = QAOutcome.generate c) ∧
      (find_relevant_chunk "pricing" ["the pricing model", "none"] = none →
        (∀ d ∈ ["the pricing model", "none"],
          chunkScore (pyWords (pyLower "pricing")) d = 0) ∧
          answer_question "pricing" ["the pricing model", "none"] = QAOutcome.notCovered)) :=
  ⟨by decide, by decide,
    C1_top1_behavior "pricing" ["the pricing model", "none"] (by decide) (by decide)⟩

/-- The Python substring scan succeeds exactly when the needle's characters
are a contiguous sublist of the haystack's characters. -/
theorem pyIn_iff (a b : String) : pyIn a b = true ↔ a.data <:+: b.data := by
  unfold pyIn
  rw [List.any_eq_true]
  constructor
  · rintro ⟨i, _, hp⟩
    rw [List.isPrefixOf_iff_prefix] at hp
    obtain ⟨t, ht⟩ := hp
    refine ⟨b.data.take i, t, ?_⟩
    rw [List.append_assoc, ht, List.take_append_drop]
  · intro h
    obtain ⟨s, t, hst⟩ := h
    refine ⟨s.length, ?_, ?_⟩
    · rw [List.mem_range]
      have hlen := congrArg List.length hst
      rw [List.length_append, List.length_append] at hlen
      omega
    · rw [List.isPrefixOf_iff_prefix, ← hst, List.append_assoc, List.drop_left]
      exact ⟨t, rfl⟩

/-- The Python substring scan as a decidable contiguous-sublist test. -/
theorem pyIn_eq_decide (a b : String) : pyIn a b = decide (a.data <:+: b.data) := by
  by_cases h : a.data <:+: b.data
  · rw [decide_eq_true h, (pyIn_iff a b).mpr h]
  · rw [decide_eq_false h]
    exact Bool.eq_false_iff.mpr (fun hcon => h ((pyIn_iff a b).mp hcon))

/-- Claim C2 (corrected): the score a segment receives for a question is the
number of entries — counted WITH multiplicity — of the question's lowercased
whitespace-split word sequence whose character sequence occurs as a
contiguous substring (not a whole word) of the lowercased segment; there is
no phrase bonus term. -/
theorem C2_score_formula (question segment : String) :
    chunkScore (pyWords (pyLower question)) segment =
      ((pyWords (pyLower question)).filter
        (fun kw => decide (kw.data <:+: (pyLower segment).data))).length := by
  unfold chunkScore
  congr 1
  apply List.filter_congr
  intro kw _
  exact pyIn_eq_decide kw (pyLower segment)

/-- Counterexample for C2 as stated: question `"cat cat"` against segment
`"concatenate"`.  The spec formula gives 0 (the single distinct question
word `cat` is not a word of the segment, and the full question is not a
substring), while the code scores 2: the duplicate keyword `cat` is counted
twice because it occurs as a substring of `concatenate`. -/
theorem C2_counterexample :
    chunkScore (pyWords (pyLower "cat cat")) "concatenate" = 2 ∧
      specScore "cat cat" "concatenate" = 0 := by
  decide

/-- The stored timestamp list of a user right after an `is_allowed` call:
the pruned in-window list, extended by `now` exactly when the call was
admitted. -/
theorem is_allowed_stored (rl : RateLimiter) (uid now : Int) :
    (is_allowed rl uid now).2.user_requests (toString uid) =
      if rl.max_requests ≤ ((rl.user_requests (toString uid)).filter
          (fun ts => decide (now - 60 * window_minutes < ts))).length then
        (rl.user_requests (toString uid)).filter
          (fun ts => decide (now - 60 * window_minutes < ts))
      else
        ((rl.user_requests (toString uid)).filter
          (fun ts => decide (now - 60 * window_minutes < ts))) ++ [now] := by
  unfold is_allowed
  by_cases h : rl.max_requests ≤ ((rl.user_requests (toString uid)).filter
      (fun ts => decide (now - 60 * window_minutes < ts))).length
  · rw [if_pos h, if_pos h]
    simp
  · rw [if_neg h, if_neg h]
    simp

/-- The admission flag of an `is_allowed` call: allowed exactly when the
pruned in-window count is below the cap. -/
theorem is_allowed_flag (rl : RateLimiter) (uid now : Int) :
    (is_allowed rl uid now).1 =
      decide (((rl.user_requests (toString uid)).filter
        (fun ts => decide (now - 60 * window_minutes < ts))).length < rl.max_requests) := by
  unfold is_allowed
  by_cases h : rl.max_requests ≤ ((rl.user_requests (toString uid)).filter
      (fun ts => decide (now - 60 * window_minutes < ts))).length
  · rw [if_pos h]
    show false = _
    rw [decide_eq_false (by omega)]
  · rw [if_neg h]
    show true = _
    rw [decide_eq_true (by omega)]

/-- A list of timestamps that all lie strictly inside the trailing window is
left unchanged by the window filter. -/
theorem window_filter_id (l : List Int) (now : Int)
    (h : ∀ ts ∈ l, now - 60 * window_minutes < ts) :
    l.filter (fun ts => decide (now - ts ≤ 60 * window_minutes)) = l := by
  apply List.filter_eq_self.mpr
  intro ts hts
  rw [decide_eq_true_eq]
  have h1 := h ts hts
  unfold window_minutes at h1 ⊢
  omega

/-- Claim C6: with `maxRequests = 30` and a 60-second window, each call
prunes timestamps outside the trailing window, then denies without
recording the attempt when the pruned count reaches 30 and otherwise
records `now` and admits; consequently 30 calls in the same second are all
admitted, the 31st in that second is denied, and a call 61 seconds later is
admitted again. -/
theorem C6_sliding_window (rl : RateLimiter) (uid now : Int)
    (hmax : rl.max_requests = 30) :
    ((is_allowed rl uid now).1 =
      decide (((rl.user_requests (toString uid)).filter
        (fun ts => decide (now - 60 * window_minutes < ts))).length < 30)) ∧
    ((is_allowed rl uid now).2.user_requests (toString uid) =
      if ((rl.user_requests (toString uid)).filter
          (fun ts => decide (now - 60 * window_minutes < ts))).length < 30 then
        ((rl.user_requests (toString uid)).filter
          (fun ts => decide (now - 60 * window_minutes < ts))) ++ [now]
      else
        (rl.user_requests (toString uid)).filter
          (fun ts => decide (now - 60 * window_minutes < ts))) ∧
    ((nCalls initRL 1 0 30).1 = true ∧
      (is_allowed (nCalls initRL 1 0 30).2 1 0).1 = false ∧
      (is_allowed (is_allowed (nCalls initRL 1 0 30).2 1 0).2 1 61).1 = true) := by
  refine ⟨?_, ?_, by decide⟩
  · rw [is_allowed_flag, hmax]
  · rw [is_allowed_stored, hmax]
    by_cases hlen : ((rl.user_requests (toString uid)).filter
        (fun ts => decide (now - 60 * window_minutes < ts))).length < 30
    · rw [if_neg (by omega), if_pos hlen]
    · rw [if_pos (by omega), if_neg hlen]

/-- Witness for C6 on a fresh limiter. -/
theorem C6_sliding_window_witness :
    initRL.max_requests = 30 ∧
      (((is_allowed initRL 1 0).1 =
        decide (((initRL.user_requests (toString 1)).filter
          (fun ts => decide (0 - 60 * window_minutes < ts))).length < 30)) ∧
      ((is_allowed initRL 1 0).2.user_requests (toString 1) =
        if ((initRL.user_requests (toString 1)).filter
            (fun ts => decide (0 - 60 * window_minutes < ts))).length < 30 then
          ((initRL.user_requests (toString 1)).filter
            (fun ts => decide (0 - 60 * window_minutes < ts))) ++ [0]
        else
          (initRL.user_requests (toString 1)).filter
            (fun ts => decide (0 - 60 * window_minutes < ts))) ∧
      ((nCalls initRL 1 0 30).1 = true ∧
        (is_allowed (nCalls initRL 1 0 30).2 1 0).1 = false ∧
        (is_allowed (is_allowed (nCalls initRL 1 0 30).2 1 0).2 1 61).1 = true)) :=
  ⟨rfl, C6_sliding_window initRL 1 0 rfl⟩

/-- Counterexample for C7 as stated: one admitted request at instant 0, read
at instant 120.  The recorded timestamp has aged out of the trailing window,
so the spec formula yields a full budget of 30, but `get_remaining` still
reports 29 because it counts the stored list without pruning. -/
theorem C7_counterexample :
    get_remaining (is_allowed initRL 1 0).2 1 = 29 ∧
      spec_remaining (is_allowed initRL 1 0).2 1 120 = 30 := by
  decide

/-- Claim C7 (corrected): `remaining(userId)` equals
`max(0, maxRequests - count_of_ALL_stored_timestamps)`, with no pruning, so
timestamps that have aged out of the window DO keep reducing the reported
budget until a later `tryAcquire` prunes them.  The reported value is hence
a lower bound of the spec's windowed value, with equality immediately after
an `is_allowed` call for that user (whose stored list is then entirely
inside the window). -/
theorem C7_remaining_no_prune (rl : RateLimiter) (uid now : Int) :
    get_remaining rl uid = rl.max_requests - (rl.user_requests (toString uid)).length ∧
    get_remaining rl uid ≤ spec_remaining rl uid now ∧
    get_remaining (is_allowed rl uid now).2 uid =
      spec_remaining (is_allowed rl uid now).2 uid now := by
  refine ⟨rfl, Nat.sub_le_sub_left (List.length_filter_le _ _) _, ?_⟩
  unfold get_remaining spec_remaining
  rw [is_allowed_stored]
  have hmem : ∀ ts ∈ (if rl.max_requests ≤ ((rl.user_requests (toString uid)).filter
      (fun ts => decide (now - 60 * window_minutes < ts))).length then
        (rl.user_requests (toString uid)).filter
          (fun ts => decide (now - 60 * window_minutes < ts))
      else
        ((rl.user_requests (toString uid)).filter
          (fun ts => decide (now - 60 * window_minutes < ts))) ++ [now]),
      now - 60 * window_minutes < ts := by
    intro ts hts
    by_cases h : rl.max_requests ≤ ((rl.user_requests (toString uid)).filter
        (fun ts => decide (now - 60 * window_minutes < ts))).length
    · rw [if_pos h] at hts
      have h2 := List.of_mem_filter hts
      rwa [decide_eq_true_eq] at h2
    · rw [if_neg h] at hts
      rcases List.mem_append.mp hts with hts | hts
      · have h2 := List.of_mem_filter hts
        rwa [decide_eq_true_eq] at h2
      · have h2 : ts = now := by simpa using hts
        subst h2
        unfold window_minutes
        omega
  rw [window_filter_id _ now hmem]

/-- Claim C4 (code bug, evaluated): `put` for user 1 at instant 0 sets
`expires_at = 86400` (24 hours); a `get` at instant 90000 (25 hours later,
beyond the TTL) still returns the session data, because the in-memory cache
is consulted first and carries no expiry check — contradicting the
function's own contract of returning `None` when expired. -/
theorem C4_expired_session_served :
    (get_user_data afterSave 1 90000).1 = some d0 ∧
      (afterSave.db 1).map (fun r => r.expires_at) = some 86400 ∧
      (86400 : Int) < 90000 := by
  refine ⟨rfl, rfl, by decide⟩

/-- Counterexample for C5 as stated: a `put` on a fresh store whose durable
write fails reports success (`ok`), with the payload present in the
in-memory cache only and the durable table untouched — no storage failure is
surfaced to the caller. -/
theorem C5_counterexample :
    saveIsOk (save_user_data initSM false 1 d0 0) = true ∧
      cacheAfter (save_user_data initSM false 1 d0 0) 1 = some d0 ∧
      dbAfter (save_user_data initSM false 1 d0 0) 1 = none := by
  refine ⟨rfl, ?_, rfl⟩
  show (if (1 : Int) = 1 then some d0 else initSM.in_memory_cache 1) = some d0
  rw [if_pos rfl]

/-- Claim C5 (corrected): for EVERY `put` whose durable backend write fails,
the session store catches the storage error internally, keeps (only) the
in-memory copy, leaves the durable table unchanged, and returns success to
the caller — the degraded keep-in-memory mode is silent, and no storage
failure is ever surfaced. -/
theorem C5_silent_degrade (sm : SessionManager) (uid : Int) (data : SessionData)
    (now : Int) :
    saveIsOk (save_user_data sm false uid data now) = true ∧
      cacheAfter (save_user_data sm false uid data now) uid = some data ∧
      ∀ u : Int, dbAfter (save_user_data sm false uid data now) u = sm.db u := by
  refine ⟨rfl, ?_, fun u => rfl⟩
  show (if uid = uid then some data else sm.in_memory_cache uid) = some data
  rw [if_pos rfl]
